import Mathlib

/-!
Shallow embedding of the bollinger-forest backtester
(`src/bollinger_forest/indicators.py`, `models/classical.py`,
`models/enhanced.py`) and proofs about it.

Conventions of the embedding:
* Python floats are modelled by exact rationals `ℚ`; values that are
  irrational in the source (square roots inside the Bollinger standard
  deviation and the Sharpe ratio) live in `ℝ`.
* A pandas `NaN` entry is modelled by `none : Option _`; a float
  comparison against `NaN`, which is `False` in Python, is modelled by a
  match that returns `False` on `none`.
* pandas `rolling(window=w)` (with its default `min_periods = w`) is
  modelled by `rollingQ`: the first `w - 1` outputs are `none`.
-/

namespace BollingerForest

/-- One row of the OHLCV price frame handed to the strategies. -/
structure Bar where
  opn : ℚ
  high : ℚ
  low : ℚ
  close : ℚ
  volume : ℚ
deriving DecidableEq, Inhabited

/-- Arithmetic mean of a list, as computed by pandas `mean` (`sum / len`;
division by zero yields `0` in `ℚ`, a case no claim exercises). -/
def meanQ (l : List ℚ) : ℚ := l.sum / l.length

/-- Sample variance with `ddof = 1`, the quantity under the square root of
pandas `std`. -/
def sampleVar (l : List ℚ) : ℚ :=
  (l.map (fun x => (x - meanQ l) ^ 2)).sum / ((l.length - 1 : ℕ) : ℚ)

/-- pandas `Series.std()` (`ddof = 1`): `NaN` (here `none`) when there are
fewer than two observations, otherwise the square root of the sample
variance. -/
noncomputable def sampleStd (l : List ℚ) : Option ℝ :=
  if l.length ≤ 1 then none else some (Real.sqrt ((sampleVar l : ℚ) : ℝ))

/-- pandas `Series.rolling(window=w)` followed by an aggregation `f` of the
full window: output `t` is `f` applied to `xs[t-w+1 .. t]` when the window is
complete, `none` during the warm-up prefix. -/
def rollingQ {α : Type} (w : ℕ) (f : List ℚ → α) (xs : List ℚ) : List (Option α) :=
  (List.range xs.length).map (fun t =>
    if w ≤ t + 1 ∧ 1 ≤ w then some (f ((xs.take (t + 1)).drop (t + 1 - w))) else none)

/-- `calculate_wma_3` (indicators.py): rolling window of 3 with weights
`[1, 2, 3]`, i.e. `(1*x[t-2] + 2*x[t-1] + 3*x[t]) / 6`. -/
def calculate_wma_3 (closes : List ℚ) : List (Option ℚ) :=
  rollingQ 3 (fun window => (List.zipWith (fun a b => a * b) [1, 2, 3] window).sum / 6) closes

/-- The `MA` column of `calculate_bollinger_bands`: rolling mean over window `d`. -/
def bollingerMA (d : ℕ) (closes : List ℚ) : List (Option ℚ) :=
  rollingQ d meanQ closes

/-- The `STD` column of `calculate_bollinger_bands`: rolling sample standard
deviation over window `d` (`none` both during warm-up and when the window has
fewer than two observations, as pandas `std` with `ddof = 1`). -/
noncomputable def bollingerSTD (d : ℕ) (closes : List ℚ) : List (Option ℝ) :=
  (rollingQ d (fun window => window) closes).map (fun o => o.bind sampleStd)

/-- The `Upper_Track` column: `MA + k * STD`, index-aligned, `NaN` when either
operand is. -/
noncomputable def bollingerUpper (d : ℕ) (k : ℝ) (closes : List ℚ) : List (Option ℝ) :=
  (List.range closes.length).map (fun t =>
    Option.map₂ (fun (m : ℚ) (s : ℝ) => (m : ℝ) + k * s)
      ((bollingerMA d closes).getD t none) ((bollingerSTD d closes).getD t none))

/-- The `Lower_Track` column: `MA - k * STD`. -/
noncomputable def bollingerLower (d : ℕ) (k : ℝ) (closes : List ℚ) : List (Option ℝ) :=
  (List.range closes.length).map (fun t =>
    Option.map₂ (fun (m : ℚ) (s : ℝ) => (m : ℝ) - k * s)
      ((bollingerMA d closes).getD t none) ((bollingerSTD d closes).getD t none))

/-- Accumulator step of a NaN-skipping maximum. -/
def skipnaStep (acc x : Option ℚ) : Option ℚ :=
  match acc, x with
  | none, x => x
  | some a, none => some a
  | some a, some b => some (max a b)

/-- pandas `DataFrame.max(axis=1)` with its default `skipna=True`: the maximum
of the defined entries of a row, `none` only when every entry is missing. -/
def skipnaMax (xs : List (Option ℚ)) : Option ℚ :=
  xs.foldl skipnaStep none

/-- The true-range series built inside `calculate_atr`: per index the skipna
maximum of `high - low`, `|high - prevClose|`, `|low - prevClose|`; the two
previous-close terms are `NaN` at index 0 (`close.shift()`). -/
def trueRangeList (bars : List Bar) : List (Option ℚ) :=
  (List.range bars.length).map (fun t =>
    let b := bars.getD t default
    let prev : Option ℚ := if t = 0 then none else some ((bars.getD (t - 1) default).close)
    skipnaMax [some (b.high - b.low),
               prev.map (fun pc => |b.high - pc|),
               prev.map (fun pc => |b.low - pc|)])

/-- Rolling mean over a series that may contain `NaN`s: `none` during warm-up
and whenever the window contains a `NaN` (pandas propagates it). -/
def rollingMeanOpt (n : ℕ) (xs : List (Option ℚ)) : List (Option ℚ) :=
  (List.range xs.length).map (fun t =>
    if n ≤ t + 1 ∧ 1 ≤ n then
      let w := (xs.take (t + 1)).drop (t + 1 - n)
      if w.all Option.isSome then some (meanQ (w.filterMap id)) else none
    else none)

/-- `calculate_atr` (indicators.py): rolling mean of the true range over
window `n`. -/
def calculate_atr (bars : List Bar) (n : ℕ) : List (Option ℚ) :=
  rollingMeanOpt n (trueRangeList bars)

/-- The five per-bar inputs the enhanced simulation loop reads from a test
row (enhanced.py lines 119-125): `Predicted_WMA_Next`, `Upper_Track`,
`Lower_Track`, `ATR`, `Close`.  All are guaranteed defined there by the
`dropna` in `prepare_features`, so they are plain rationals. -/
structure SimRow where
  predWMA : ℚ
  upper : ℚ
  lower : ℚ
  atr : ℚ
  close : ℚ
deriving DecidableEq, Inhabited

/-- The mutable loop state of `EnhancedBollingerStrategy.run`:
`cash`, `position` (0 flat, 1 long, -1 short), `entry_price`, `shares`. -/
structure SimState where
  cash : ℚ
  position : ℤ
  entryPrice : ℚ
  shares : ℚ
deriving DecidableEq, Inhabited

/-- Loop-state initialisation (enhanced.py lines 112-115). -/
def initState (initialCapital : ℚ) : SimState :=
  { cash := initialCapital, position := 0, entryPrice := 0, shares := 0 }

/-- One iteration of the transition `if/elif` chain of
`EnhancedBollingerStrategy.run` (enhanced.py lines 127-149), with the same
nesting as the source: the long/short exit tests are inner `if`s under the
`elif position == 1` / `elif position == -1` arms. -/
def stepState (initialCapital : ℚ) (s : SimState) (r : SimRow) : SimState :=
  if s.position = 0 ∧ r.predWMA ≤ r.lower then
    { s with position := 1, entryPrice := r.close, shares := s.cash / r.close, cash := 0 }
  else if s.position = 0 ∧ r.predWMA ≥ r.upper then
    let sh := initialCapital / r.close
    { s with position := -1, entryPrice := r.close, shares := sh,
             cash := initialCapital + sh * r.close }
  else if s.position = 1 then
    if r.predWMA < s.entryPrice - 3 * r.atr ∨ r.predWMA > r.upper then
      { s with position := 0, cash := s.shares * r.close, shares := 0 }
    else s
  else if s.position = -1 then
    if r.predWMA > s.entryPrice + 3 * r.atr ∨ r.predWMA < r.lower then
      { s with position := 0, cash := s.cash - s.shares * r.close, shares := 0 }
    else s
  else s

/-- The post-transition valuation (enhanced.py lines 151-156): `cash` when
flat, `shares * close` when long, `cash - shares * close` when short.  The
source guards the last case by `position == -1`; positions outside
{0, 1, -1} never occur (see the state-machine invariant), so the final
`else` renders that arm. -/
def portfolioValue (s : SimState) (close : ℚ) : ℚ :=
  if s.position = 0 then s.cash
  else if s.position = 1 then s.shares * close
  else s.cash - s.shares * close

/-- The simulation loop of `EnhancedBollingerStrategy.run` (lines 118-158):
threads the state through the rows and appends the post-transition valuation
of every bar; returns the final state and the `Portfolio_Value` list. -/
def simSteps (initialCapital : ℚ) : SimState → List SimRow → SimState × List ℚ
  | s, [] => (s, [])
  | s, r :: rs =>
    let s1 := stepState initialCapital s r
    let rest := simSteps initialCapital s1 rs
    (rest.1, portfolioValue s1 r.close :: rest.2)

/-- Transition relation transcribed from the WORDS of spec section 4.4 /
claim C1: four guarded rules tried in priority order, each guard carrying
its full applicability condition, with an explicit otherwise-unchanged
default.  To be compared against `stepState`, which follows the source. -/
def specTransition (initialCapital : ℚ) (s : SimState) (r : SimRow) : SimState :=
  if s.position = 0 ∧ r.predWMA ≤ r.lower then
    { s with position := 1, shares := s.cash / r.close, cash := 0, entryPrice := r.close }
  else if s.position = 0 ∧ r.predWMA ≥ r.upper then
    { s with position := -1, shares := initialCapital / r.close,
             cash := initialCapital + (initialCapital / r.close) * r.close,
             entryPrice := r.close }
  else if s.position = 1 ∧ (r.predWMA < s.entryPrice - 3 * r.atr ∨ r.predWMA > r.upper) then
    { s with position := 0, cash := s.shares * r.close, shares := 0 }
  else if s.position = -1 ∧ (r.predWMA > s.entryPrice + 3 * r.atr ∨ r.predWMA < r.lower) then
    { s with position := 0, cash := s.cash - s.shares * r.close, shares := 0 }
  else s

/-- C1: in the enhanced simulator, the per-bar state transition equals the
four spec rules applied in the fixed priority order (FLAT→LONG, FLAT→SHORT,
LONG→FLAT, SHORT→FLAT), exactly one transition firing per bar, with the
state unchanged when no rule fires. -/
theorem C1_step_matches_spec_rules (I : ℚ) (s : SimState) (r : SimRow) :
    stepState I s r = specTransition I s r := by
  unfold stepState specTransition
  split_ifs <;> first | rfl | tauto | omega

/-- C2: opening a SHORT from FLAT sets `shares = initialCapital / close` and
`cash = initialCapital + shares * close`; closing it via the stop-loss (or
band exit) reduces cash by exactly `shares * close`, so the SHORT valuation
`cash - shares * close`, taken with the closing bar's close immediately
before the position is closed, equals the portfolio value reported at the
closing bar. -/
theorem C2_short_accounting (I : ℚ) (s : SimState) (r1 r2 : SimRow)
    (h0 : s.position = 0)
    (hnl : ¬ r1.predWMA ≤ r1.lower)
    (hup : r1.predWMA ≥ r1.upper)
    (hexit : r2.predWMA > (stepState I s r1).entryPrice + 3 * r2.atr ∨
             r2.predWMA < r2.lower) :
    (stepState I s r1).shares = I / r1.close ∧
    (stepState I s r1).cash = I + (stepState I s r1).shares * r1.close ∧
    (stepState I (stepState I s r1) r2).cash
      = (stepState I s r1).cash - (stepState I s r1).shares * r2.close ∧
    portfolioValue (stepState I (stepState I s r1) r2) r2.close
      = (stepState I s r1).cash - (stepState I s r1).shares * r2.close := by
  have e1 : stepState I s r1
      = (⟨I + I / r1.close * r1.close, -1, r1.close, I / r1.close⟩ : SimState) := by
    unfold stepState
    rw [if_neg (fun h => hnl h.2), if_pos ⟨h0, hup⟩]
  rw [e1] at hexit ⊢
  have e2 : stepState I (⟨I + I / r1.close * r1.close, -1, r1.close, I / r1.close⟩ : SimState) r2
      = (⟨I + I / r1.close * r1.close - I / r1.close * r2.close, 0, r1.close, 0⟩ : SimState) := by
    unfold stepState
    rw [if_neg (by simp), if_neg (by simp), if_neg (by simp), if_pos rfl, if_pos hexit]
  rw [e2]
  refine ⟨rfl, rfl, rfl, ?_⟩
  simp [portfolioValue]

/-- Witness for C2 at concrete inputs: flat state with initial capital
100000, a short entry fired by predicted WMA 110 against upper band 105 at
close 50, then a stop-loss exit fired by predicted WMA 200 at close 40. -/
theorem C2_short_accounting_witness :
    (stepState 100000 (initState 100000) ⟨110, 105, 90, 1, 50⟩).shares = 100000 / 50 ∧
    (stepState 100000 (initState 100000) ⟨110, 105, 90, 1, 50⟩).cash
      = 100000 + (stepState 100000 (initState 100000) ⟨110, 105, 90, 1, 50⟩).shares * 50 ∧
    (stepState 100000 (stepState 100000 (initState 100000) ⟨110, 105, 90, 1, 50⟩)
        ⟨200, 300, 10, 1, 40⟩).cash
      = (stepState 100000 (initState 100000) ⟨110, 105, 90, 1, 50⟩).cash
        - (stepState 100000 (initState 100000) ⟨110, 105, 90, 1, 50⟩).shares * 40 ∧
    portfolioValue (stepState 100000 (stepState 100000 (initState 100000) ⟨110, 105, 90, 1, 50⟩)
        ⟨200, 300, 10, 1, 40⟩) 40
      = (stepState 100000 (initState 100000) ⟨110, 105, 90, 1, 50⟩).cash
        - (stepState 100000 (initState 100000) ⟨110, 105, 90, 1, 50⟩).shares * 40 :=
  C2_short_accounting 100000 (initState 100000) ⟨110, 105, 90, 1, 50⟩ ⟨200, 300, 10, 1, 40⟩
    rfl (by norm_num) (by norm_num) (by left; norm_num [stepState, initState])

/-- C10: a FLAT→SHORT entry overwrites cash with
`initial_capital + shares * close = 2 * initial_capital` regardless of the
cash held before the entry, and the portfolio value recorded at the
short-entry bar is exactly `initial_capital`. -/
theorem C10_short_entry_resets_equity (I : ℚ) (s : SimState) (r : SimRow)
    (h0 : s.position = 0)
    (hnl : ¬ r.predWMA ≤ r.lower)
    (hup : r.predWMA ≥ r.upper)
    (hc : r.close ≠ 0) :
    (stepState I s r).cash = 2 * I ∧
    portfolioValue (stepState I s r) r.close = I := by
  have e1 : stepState I s r
      = (⟨I + I / r.close * r.close, -1, r.close, I / r.close⟩ : SimState) := by
    unfold stepState
    rw [if_neg (fun h => hnl h.2), if_pos ⟨h0, hup⟩]
  rw [e1]
  constructor
  · show I + I / r.close * r.close = 2 * I
    rw [div_mul_cancel₀ _ hc]; ring
  · simp only [portfolioValue]
    norm_num

/-- Witness for C10: a short entry out of a flat state holding cash 77777
(not the initial capital 100000) still records portfolio value 100000. -/
theorem C10_short_entry_resets_equity_witness :
    (stepState 100000 ⟨77777, 0, 0, 0⟩ ⟨110, 105, 90, 1, 50⟩).cash = 2 * 100000 ∧
    portfolioValue (stepState 100000 ⟨77777, 0, 0, 0⟩ ⟨110, 105, 90, 1, 50⟩) 50 = 100000 :=
  C10_short_entry_resets_equity 100000 ⟨77777, 0, 0, 0⟩ ⟨110, 105, 90, 1, 50⟩
    rfl (by norm_num) (by norm_num) (by norm_num)

lemma simSteps_values_length (I : ℚ) (s : SimState) (rows : List SimRow) :
    (simSteps I s rows).2.length = rows.length := by
  induction rows generalizing s with
  | nil => rfl
  | cons r rs ih => simp [simSteps, ih]

lemma scanl_getD_zero {α β : Type} (f : β → α → β) (b : β) (l : List α) (d : β) :
    (List.scanl f b l).getD 0 d = b := by
  cases l <;> simp [List.scanl_nil, List.scanl_cons]

lemma simSteps_values_getD (I : ℚ) (rows : List SimRow) (s : SimState) (i : ℕ)
    (h : i < rows.length) :
    (simSteps I s rows).2.getD i 0
      = portfolioValue ((List.scanl (stepState I) s rows).getD (i + 1) (initState I))
          ((rows.getD i default).close) := by
  induction rows generalizing s i with
  | nil => exact absurd h (by simp)
  | cons r rs ih =>
    cases i with
    | zero =>
      simp [simSteps, List.scanl_cons, List.getD_cons_zero, List.getD_cons_succ,
        scanl_getD_zero]
    | succ j =>
      have hj : j < rs.length := by simpa using h
      simp only [simSteps, List.getD_cons_succ, List.scanl_cons, List.cons_append,
        List.nil_append]
      exact ih (stepState I s r) j hj

/-- C3: the emitted `Portfolio_Value` series has exactly one entry per
evaluation bar, in order, and the entry for bar `i` is the valuation of the
state reached after bar `i`'s transition: `cash` when flat, `shares * close`
when long, `cash - shares * close` when short (`close` being bar `i`'s
close). -/
theorem C3_portfolio_values_aligned (I : ℚ) (rows : List SimRow) (i : ℕ)
    (h : i < rows.length) :
    (simSteps I (initState I) rows).2.length = rows.length ∧
    (simSteps I (initState I) rows).2.getD i 0
      = (fun s close => if s.position = 0 then s.cash
          else if s.position = 1 then s.shares * close
          else s.cash - s.shares * close)
        ((List.scanl (stepState I) (initState I) rows).getD (i + 1) (initState I))
        ((rows.getD i default).close) := by
  refine ⟨simSteps_values_length I _ rows, ?_⟩
  rw [simSteps_values_getD I rows (initState I) i h]
  rfl

/-- Witness for C3: a one-bar run whose bar fires the long entry; the single
reported value is the post-transition long valuation `shares * close`. -/
theorem C3_portfolio_values_aligned_witness :
    (simSteps 100000 (initState 100000) [⟨80, 105, 90, 1, 50⟩]).2.length = 1 ∧
    (simSteps 100000 (initState 100000) [⟨80, 105, 90, 1, 50⟩]).2.getD 0 0
      = (fun s close => if s.position = 0 then s.cash
          else if s.position = 1 then s.shares * close
          else s.cash - s.shares * close)
        ((List.scanl (stepState 100000) (initState 100000) [⟨80, 105, 90, 1, 50⟩]).getD 1
          (initState 100000))
        (([⟨80, 105, 90, 1, 50⟩] : List SimRow).getD 0 default).close :=
  C3_portfolio_values_aligned 100000 [⟨80, 105, 90, 1, 50⟩] 0 (by norm_num)

/-- The state-machine invariant of claim C4, phrased on the source's integer
position encoding. -/
def simInv (s : SimState) : Prop :=
  (s.position = 0 ∨ s.position = 1 ∨ s.position = -1) ∧ (s.position = 0 → s.shares = 0)

lemma stepState_preserves_inv (I : ℚ) (s : SimState) (r : SimRow) (hs : simInv s) :
    simInv (stepState I s r) := by
  obtain ⟨hpos, hsh⟩ := hs
  unfold simInv stepState
  split_ifs <;>
    first
      | exact ⟨hpos, hsh⟩
      | exact ⟨Or.inl rfl, fun _ => rfl⟩
      | exact ⟨Or.inr (Or.inl rfl), fun h => absurd (show (1 : ℤ) = 0 from h) (by decide)⟩
      | exact ⟨Or.inr (Or.inr rfl), fun h => absurd (show (-1 : ℤ) = 0 from h) (by decide)⟩

lemma scanl_mem_invariant {α β : Type} (f : β → α → β) (P : β → Prop)
    (hstep : ∀ b a, P b → P (f b a)) :
    ∀ (l : List α) (b : β), P b → ∀ x ∈ List.scanl f b l, P x := by
  intro l
  induction l with
  | nil =>
    intro b hb x hx
    rw [List.scanl_nil, List.mem_singleton] at hx
    exact hx ▸ hb
  | cons a as ih =>
    intro b hb x hx
    rw [List.scanl_cons] at hx
    rcases List.mem_append.mp hx with h1 | h2
    · exact (List.mem_singleton.mp h1) ▸ hb
    · exact ih (f b a) (hstep b a hb) x h2

/-- C4: at every bar of every enhanced run (i.e. at every entry of the state
trajectory, the initial state included), the position is one of 0 (FLAT),
1 (LONG), -1 (SHORT), and `shares = 0` whenever the position is FLAT. -/
theorem C4_state_machine_invariant (I : ℚ) (rows : List SimRow) (s : SimState)
    (hs : s ∈ List.scanl (stepState I) (initState I) rows) :
    (s.position = 0 ∨ s.position = 1 ∨ s.position = -1) ∧
    (s.position = 0 → s.shares = 0) :=
  scanl_mem_invariant (stepState I) simInv (fun b a hb => stepState_preserves_inv I b a hb)
    rows (initState I) ⟨Or.inl rfl, fun _ => rfl⟩ s hs

/-- Witness for C4: the state reached after a long entry bar satisfies the
invariant. -/
theorem C4_state_machine_invariant_witness :
    ((stepState 100000 (initState 100000) ⟨80, 105, 90, 1, 50⟩).position = 0 ∨
     (stepState 100000 (initState 100000) ⟨80, 105, 90, 1, 50⟩).position = 1 ∨
     (stepState 100000 (initState 100000) ⟨80, 105, 90, 1, 50⟩).position = -1) ∧
    ((stepState 100000 (initState 100000) ⟨80, 105, 90, 1, 50⟩).position = 0 →
     (stepState 100000 (initState 100000) ⟨80, 105, 90, 1, 50⟩).shares = 0) :=
  C4_state_machine_invariant 100000 [⟨80, 105, 90, 1, 50⟩]
    (stepState 100000 (initState 100000) ⟨80, 105, 90, 1, 50⟩)
    (by simp [List.scanl_cons, List.scanl_nil])

/-- One row of `df_processed` as consumed by `EnhancedBollingerStrategy.run`
after `prepare_features`: its date index, the model's feature vector, and the
columns the simulation loop reads.  All entries are defined (the frame is
post-`dropna`). -/
structure ProcRow where
  date : ℕ
  features : List ℚ
  wma3 : ℚ
  upper : ℚ
  lower : ℚ
  atr : ℚ
  close : ℚ
deriving DecidableEq, Inhabited

/-- `Predicted_WMA_Next = WMA_3 + Predicted_Diff` (enhanced.py line 110),
packaged with the other per-bar loop inputs.  `model` stands for the fitted
regressor's per-row prediction. -/
def toSimRow (model : List ℚ → ℚ) (p : ProcRow) : SimRow :=
  { predWMA := p.wma3 + model p.features, upper := p.upper, lower := p.lower,
    atr := p.atr, close := p.close }

/-- `EnhancedBollingerStrategy.run` from the split on (enhanced.py lines
98-160), with the already-processed frame and the regressor abstracted:
`fit` maps the training rows to a per-row prediction function (the random
forest internals are outside the embedding).  Mirrors the source order:
split, fail fast on an empty test set, otherwise fit, predict and simulate.
The error value models the raised `ValueError`. -/
def runFromProcessed (initialCapital : ℚ) (fit : List ProcRow → List ℚ → ℚ)
    (rows : List ProcRow) (splitDate : ℕ) : Except String (List ℚ) :=
  let train := rows.filter (fun p => p.date < splitDate)
  let test := rows.filter (fun p => splitDate ≤ p.date)
  if test.length = 0 then Except.error "No test data available."
  else
    let model := fit train
    Except.ok (simSteps initialCapital (initState initialCapital) (test.map (toSimRow model))).2

/-- C5: the split puts exactly the rows dated strictly before the cutoff in
the training set and the rows dated on/after in the evaluation set; an empty
evaluation set makes the run fail with the descriptive error and produce no
portfolio values, and a non-empty one always yields one portfolio value per
evaluation bar with no per-bar failure. -/
theorem C5_split_and_empty_test_failure (I : ℚ) (fit : List ProcRow → List ℚ → ℚ)
    (rows : List ProcRow) (splitDate : ℕ) :
    (∀ p ∈ rows, (p ∈ rows.filter (fun q => q.date < splitDate) ↔ p.date < splitDate) ∧
                 (p ∈ rows.filter (fun q => splitDate ≤ q.date) ↔ splitDate ≤ p.date)) ∧
    (rows.filter (fun q => splitDate ≤ q.date) = [] →
      runFromProcessed I fit rows splitDate = Except.error "No test data available.") ∧
    (rows.filter (fun q => splitDate ≤ q.date) ≠ [] →
      ∃ vals : List ℚ, runFromProcessed I fit rows splitDate = Except.ok vals ∧
        vals.length = (rows.filter (fun q => splitDate ≤ q.date)).length) := by
  refine ⟨?_, ?_, ?_⟩
  · intro p hp
    constructor
    · rw [List.mem_filter]
      constructor
      · intro h
        exact of_decide_eq_true h.2
      · intro h
        exact ⟨hp, decide_eq_true h⟩
    · rw [List.mem_filter]
      constructor
      · intro h
        exact of_decide_eq_true h.2
      · intro h
        exact ⟨hp, decide_eq_true h⟩
  · intro h
    unfold runFromProcessed
    rw [if_pos (by rw [h]; rfl)]
  · intro h
    unfold runFromProcessed
    rw [if_neg (fun hc => h (List.length_eq_zero.mp hc))]
    exact ⟨_, rfl, by rw [simSteps_values_length, List.length_map]⟩

/-- Witness for C5 at concrete inputs: two rows around cutoff 10 with a
constant-zero model; the witness run returns one value per evaluation row,
and the same rows with cutoff 99 give the descriptive error. -/
theorem C5_split_and_empty_test_failure_witness :
    ((⟨5, [], 1, 2, 3, 4, 5⟩ : ProcRow)
        ∈ [(⟨5, [], 1, 2, 3, 4, 5⟩ : ProcRow), ⟨12, [], 1, 2, 3, 4, 5⟩].filter
            (fun q => q.date < 10) ↔ (5 : ℕ) < 10) ∧
    ([(⟨5, [], 1, 2, 3, 4, 5⟩ : ProcRow), ⟨12, [], 1, 2, 3, 4, 5⟩].filter
        (fun q => (99 : ℕ) ≤ q.date) = [] →
      runFromProcessed 100000 (fun _ _ => 0)
        [⟨5, [], 1, 2, 3, 4, 5⟩, ⟨12, [], 1, 2, 3, 4, 5⟩] 99
        = Except.error "No test data available.") ∧
    (∃ vals : List ℚ, runFromProcessed 100000 (fun _ _ => 0)
        [(⟨5, [], 1, 2, 3, 4, 5⟩ : ProcRow), ⟨12, [], 1, 2, 3, 4, 5⟩] 10
        = Except.ok vals ∧
      vals.length = ([(⟨5, [], 1, 2, 3, 4, 5⟩ : ProcRow), ⟨12, [], 1, 2, 3, 4, 5⟩].filter
          (fun q => (10 : ℕ) ≤ q.date)).length) := by
  refine ⟨?_, ?_, ?_⟩
  · exact ((C5_split_and_empty_test_failure 100000 (fun _ _ => 0)
      [⟨5, [], 1, 2, 3, 4, 5⟩, ⟨12, [], 1, 2, 3, 4, 5⟩] 10).1
      ⟨5, [], 1, 2, 3, 4, 5⟩ (by simp)).1
  · exact fun h => (C5_split_and_empty_test_failure 100000 (fun _ _ => 0)
      [⟨5, [], 1, 2, 3, 4, 5⟩, ⟨12, [], 1, 2, 3, 4, 5⟩] 99).2.1 h
  · exact (C5_split_and_empty_test_failure 100000 (fun _ _ => 0)
      [⟨5, [], 1, 2, 3, 4, 5⟩, ⟨12, [], 1, 2, 3, 4, 5⟩] 10).2.2 (by simp)

lemma getD_range_map {α : Type} (f : ℕ → α) (n t : ℕ) (d : α) :
    ((List.range n).map f).getD t d = if t < n then f t else d := by
  rw [List.getD_eq_getElem?_getD, List.getElem?_map]
  by_cases h : t < n
  · rw [List.getElem?_range h]
    simp [h]
  · rw [List.getElem?_eq_none (by simpa using Nat.le_of_not_lt h)]
    simp [h]

lemma skipnaStep_isSome_left (a : ℚ) (x : Option ℚ) : (skipnaStep (some a) x).isSome := by
  cases x <;> rfl

lemma foldl_skipnaStep_isSome (l : List (Option ℚ)) (a : ℚ) :
    (l.foldl skipnaStep (some a)).isSome := by
  induction l generalizing a with
  | nil => rfl
  | cons x xs ih =>
    rw [List.foldl_cons]
    rcases x with _ | b
    · exact ih a
    · exact ih (max a b)

lemma skipnaMax_cons_some (a : ℚ) (rest : List (Option ℚ)) :
    (skipnaMax (some a :: rest)).isSome := by
  unfold skipnaMax
  rw [List.foldl_cons]
  exact foldl_skipnaStep_isSome rest a

lemma trueRangeList_length (bars : List Bar) :
    (trueRangeList bars).length = bars.length := by
  simp [trueRangeList]

lemma trueRangeList_all_isSome (bars : List Bar) :
    ∀ x ∈ trueRangeList bars, x.isSome := by
  intro x hx
  unfold trueRangeList at hx
  rw [List.mem_map] at hx
  obtain ⟨t, _, rfl⟩ := hx
  exact skipnaMax_cons_some _ _

/-- C7 (amended): for every non-empty bar series, the true range at index 0
is DEFINED and equals `high[0] - low[0]` (the `NaN` previous-close terms are
skipped by the row maximum), and for window `n ≥ 1` the ATR at a valid index
`t` is defined iff `n - 1 ≤ t`: its warm-up is exactly the first `n - 1`
indices, so the first defined ATR value sits at index `n - 1`, not `n`. -/
theorem C7_atr_warmup_amended (bars : List Bar) (n t : ℕ)
    (hbars : bars ≠ []) (hn : 1 ≤ n) (ht : t < bars.length) :
    (trueRangeList bars).getD 0 none
      = some ((bars.getD 0 default).high - (bars.getD 0 default).low) ∧
    (((calculate_atr bars n).getD t none).isSome ↔ n - 1 ≤ t) := by
  constructor
  · unfold trueRangeList
    rw [getD_range_map, if_pos (List.length_pos.mpr hbars)]
    simp [skipnaMax, skipnaStep]
  · unfold calculate_atr rollingMeanOpt
    rw [getD_range_map, if_pos (by rwa [trueRangeList_length])]
    by_cases hw : n ≤ t + 1
    · rw [if_pos ⟨hw, hn⟩]
      have hall : (List.drop (t + 1 - n) (List.take (t + 1) (trueRangeList bars))).all
          Option.isSome = true := by
        rw [List.all_eq_true]
        intro x hx
        exact trueRangeList_all_isSome bars x
          (List.mem_of_mem_take (List.mem_of_mem_drop hx))
      simp only [hall, if_true, Option.isSome_some]
      constructor
      · intro _; omega
      · intro _; trivial
    · rw [if_neg (fun hc => hw hc.1)]
      simp only [Option.isSome_none]
      constructor
      · intro h; cases h
      · intro h; omega

/-- Witness for C7 (amended) at a concrete two-bar series with window 2:
true range is defined at index 0, and ATR at index 1 is defined (1 = n - 1). -/
theorem C7_atr_warmup_amended_witness :
    (trueRangeList [⟨1, 10, 5, 7, 0⟩, ⟨1, 9, 6, 8, 0⟩]).getD 0 none
      = some ((([⟨1, 10, 5, 7, 0⟩, ⟨1, 9, 6, 8, 0⟩] : List Bar).getD 0 default).high
              - (([⟨1, 10, 5, 7, 0⟩, ⟨1, 9, 6, 8, 0⟩] : List Bar).getD 0 default).low) ∧
    (((calculate_atr [⟨1, 10, 5, 7, 0⟩, ⟨1, 9, 6, 8, 0⟩] 2).getD 1 none).isSome ↔
      2 - 1 ≤ 1) :=
  C7_atr_warmup_amended [⟨1, 10, 5, 7, 0⟩, ⟨1, 9, 6, 8, 0⟩] 2 1
    (by simp) (by norm_num) (by norm_num)

/-- C7 counterexample: on a concrete two-bar series with window `n = 2`, the
true range at index 0 is `some 5` (`high - low`), not undefined, and the ATR
is already defined at index `n - 1 = 1` (value `(5 + 3) / 2 = 4`), not first
at index `n = 2` — contrary to the claim. -/
theorem C7_atr_warmup_counterexample :
    (trueRangeList [⟨1, 10, 5, 7, 0⟩, ⟨1, 9, 6, 8, 0⟩]).getD 0 none = some 5 ∧
    (calculate_atr [⟨1, 10, 5, 7, 0⟩, ⟨1, 9, 6, 8, 0⟩] 2).getD 1 none = some 4 := by
  constructor <;>
    norm_num [trueRangeList, skipnaMax, skipnaStep, calculate_atr, rollingMeanOpt,
      meanQ, getD_range_map, List.range_succ, abs_of_nonneg, abs_of_nonpos,
      List.filterMap_cons, List.filterMap_nil]

/-- The feature column list built in `prepare_features` (enhanced.py lines
63-67): the OHLCV names followed by the six lag-column names appended in the
loop. -/
def featureCols : List String :=
  ["Open", "High", "Low", "Close", "Volume"]
    ++ (List.range 6).map (fun i => "WMA_3_lag_" ++ toString i)

/-- One row of the frame built by `prepare_features` before `dropna`: the raw
OHLCV entries (always defined) and every derived column, each `none` inside
its warm-up / shift region. -/
structure PRow where
  opn : ℚ
  high : ℚ
  low : ℚ
  close : ℚ
  volume : ℚ
  wma3 : Option ℚ
  ma : Option ℚ
  std : Option ℝ
  upper : Option ℝ
  lower : Option ℝ
  atr : Option ℚ
  lags : List (Option ℚ)
  targetDiff : Option ℚ
deriving Inhabited

/-- The frame of `prepare_features` before `dropna` (enhanced.py lines
58-69): WMA_3, Bollinger bands with d = 20 and k = 3, ATR with n = 20,
lag columns `WMA_3.shift(i)` for i = 0..5, and
`Target_Diff = WMA_3.shift(-1) - WMA_3`. -/
noncomputable def buildRows (bars : List Bar) : List PRow :=
  let closes := bars.map (fun b => b.close)
  let wma := calculate_wma_3 closes
  (List.range bars.length).map (fun t =>
    let b := bars.getD t default
    { opn := b.opn, high := b.high, low := b.low, close := b.close, volume := b.volume,
      wma3 := wma.getD t none,
      ma := (bollingerMA 20 closes).getD t none,
      std := (bollingerSTD 20 closes).getD t none,
      upper := (bollingerUpper 20 3 closes).getD t none,
      lower := (bollingerLower 20 3 closes).getD t none,
      atr := (calculate_atr bars 20).getD t none,
      lags := (List.range 6).map (fun i => if i ≤ t then wma.getD (t - i) none else none),
      targetDiff :=
        match wma.getD (t + 1) none, wma.getD t none with
        | some a, some b => some (a - b)
        | _, _ => none })

/-- pandas `df.dropna()`: a row survives iff every column is defined. -/
def rowDefined (r : PRow) : Bool :=
  r.wma3.isSome && r.ma.isSome && r.std.isSome && r.upper.isSome && r.lower.isSome
    && r.atr.isSome && r.lags.all Option.isSome && r.targetDiff.isSome

/-- `prepare_features` (enhanced.py line 70): the frame with NaN rows
dropped, paired with the feature column list. -/
noncomputable def prepare_features (bars : List Bar) : List PRow × List String :=
  ((buildRows bars).filter rowDefined, featureCols)

/-- Whether every entry of the model's feature vector of a row is defined
(the OHLCV entries always are; the lag columns may not be). -/
def featuresDefined (r : PRow) : Bool :=
  r.lags.all Option.isSome

/-- A row's feature vector, reading the fields in the order of
`featureCols`: Open, High, Low, Close, Volume, then the six WMA_3 lags. -/
def featureVec (r : PRow) : List (Option ℚ) :=
  [some r.opn, some r.high, some r.low, some r.close, some r.volume] ++ r.lags

lemma mem_buildRows_lags_length (bars : List Bar) (r : PRow) (hr : r ∈ buildRows bars) :
    r.lags.length = 6 := by
  unfold buildRows at hr
  rw [List.mem_map] at hr
  obtain ⟨t, _, rfl⟩ := hr
  simp

/-- C6 (amended): `prepare_features` returns the feature-column list
[Open, High, Low, Close, Volume, WMA_3_lag_0 .. WMA_3_lag_5], of length 11,
matching each returned row's feature vector in order and length, with every
feature of a returned row defined; but the returned row set keeps exactly
the rows whose every column is defined — a row is dropped iff some feature,
the target, or one of the derived indicator columns (WMA_3, MA, STD,
Upper_Track, Lower_Track, ATR) is undefined, not only features/target. -/
theorem C6_prepare_features_amended (bars : List Bar) :
    (prepare_features bars).2
      = ["Open", "High", "Low", "Close", "Volume", "WMA_3_lag_0", "WMA_3_lag_1",
         "WMA_3_lag_2", "WMA_3_lag_3", "WMA_3_lag_4", "WMA_3_lag_5"] ∧
    (∀ r ∈ (prepare_features bars).1,
      (featureVec r).length = (prepare_features bars).2.length ∧
      (featureVec r).all Option.isSome = true) ∧
    (∀ r, r ∈ (prepare_features bars).1 ↔
      r ∈ buildRows bars ∧ featuresDefined r = true ∧ r.targetDiff.isSome = true ∧
        r.wma3.isSome = true ∧ r.ma.isSome = true ∧ r.std.isSome = true ∧
        r.upper.isSome = true ∧ r.lower.isSome = true ∧ r.atr.isSome = true) := by
  have hmem : ∀ r, r ∈ (prepare_features bars).1 ↔
      r ∈ buildRows bars ∧ featuresDefined r = true ∧ r.targetDiff.isSome = true ∧
        r.wma3.isSome = true ∧ r.ma.isSome = true ∧ r.std.isSome = true ∧
        r.upper.isSome = true ∧ r.lower.isSome = true ∧ r.atr.isSome = true := by
    intro r
    unfold prepare_features
    rw [List.mem_filter]
    unfold rowDefined featuresDefined
    simp only [Bool.and_eq_true]
    tauto
  refine ⟨rfl, ?_, hmem⟩
  intro r hr
  obtain ⟨hb, hf, -⟩ := (hmem r).mp hr
  constructor
  · unfold featureVec
    rw [List.length_append, mem_buildRows_lags_length bars r hb]
    rfl
  · unfold featuresDefined at hf
    unfold featureVec
    simp only [List.all_append, Bool.and_eq_true]
    exact ⟨by simp, hf⟩

/-- Witness for C6 (amended) on a concrete series long enough to keep rows:
every conjunct of the amended statement at 30 constant-price bars. -/
theorem C6_prepare_features_amended_witness :
    (prepare_features (List.replicate 30 ⟨1, 3, 1, 2, 5⟩)).2
      = ["Open", "High", "Low", "Close", "Volume", "WMA_3_lag_0", "WMA_3_lag_1",
         "WMA_3_lag_2", "WMA_3_lag_3", "WMA_3_lag_4", "WMA_3_lag_5"] ∧
    (∀ r ∈ (prepare_features (List.replicate 30 ⟨1, 3, 1, 2, 5⟩)).1,
      (featureVec r).length = (prepare_features (List.replicate 30 ⟨1, 3, 1, 2, 5⟩)).2.length ∧
      (featureVec r).all Option.isSome = true) ∧
    (∀ r, r ∈ (prepare_features (List.replicate 30 ⟨1, 3, 1, 2, 5⟩)).1 ↔
      r ∈ buildRows (List.replicate 30 ⟨1, 3, 1, 2, 5⟩) ∧ featuresDefined r = true ∧
        r.targetDiff.isSome = true ∧ r.wma3.isSome = true ∧ r.ma.isSome = true ∧
        r.std.isSome = true ∧ r.upper.isSome = true ∧ r.lower.isSome = true ∧
        r.atr.isSome = true) :=
  C6_prepare_features_amended (List.replicate 30 ⟨1, 3, 1, 2, 5⟩)

/-- A concrete 9-bar price series for the C6 counterexample. -/
def bars9 : List Bar :=
  [⟨1, 2, 1, 1, 5⟩, ⟨1, 3, 1, 2, 5⟩, ⟨1, 4, 1, 3, 5⟩, ⟨1, 5, 1, 4, 5⟩, ⟨1, 6, 1, 5, 5⟩,
   ⟨1, 7, 1, 6, 5⟩, ⟨1, 8, 1, 7, 5⟩, ⟨1, 9, 1, 8, 5⟩, ⟨1, 10, 1, 9, 5⟩]

/-- C6 counterexample: in the 9-bar series `bars9`, the row at index 7 has
every feature (OHLCV and all six WMA_3 lags) and the target defined, yet
`prepare_features` returns NO rows at all — `dropna` also dropped it because
the window-20 columns (MA, STD, bands, ATR) are undefined.  So "dropped iff
some feature or the target is undefined" is false. -/
theorem C6_prepare_features_counterexample :
    featuresDefined ((buildRows bars9).getD 7 default) = true ∧
    ((buildRows bars9).getD 7 default).targetDiff.isSome = true ∧
    (prepare_features bars9).1 = [] :=
  ⟨rfl, rfl, rfl⟩

/-- `portfolio_values.pct_change().dropna()` (indicators.py line 118): the
percentage returns `value[t] / value[t-1] - 1` for `t ≥ 1` (the leading `NaN`
of `pct_change` is the one `dropna` removes; the series itself has no
missing entries). -/
def pct_change (xs : List ℚ) : List ℚ :=
  match xs with
  | [] => []
  | x :: rest => List.zipWith (fun prev cur => cur / prev - 1) (x :: rest) rest

/-- `calculate_sharpe_ratio` (indicators.py lines 104-122): if the sample
standard deviation of the returns is 0 return 0.0, else
`mean / std * sqrt(252)`.  A `NaN` standard deviation (fewer than two
returns) makes the Python comparison `std == 0` false and the result `NaN`,
modelled by the `none` propagation of `Option.bind`. -/
noncomputable def calculate_sharpe (values : List ℚ) : Option ℝ :=
  (sampleStd (pct_change values)).bind (fun s =>
    if s = 0 then some 0
    else some (((meanQ (pct_change values) : ℚ) : ℝ) / s * Real.sqrt 252))

lemma sampleVar_nonneg (l : List ℚ) : 0 ≤ sampleVar l := by
  unfold sampleVar
  apply div_nonneg
  · apply List.sum_nonneg
    intro x hx
    rw [List.mem_map] at hx
    obtain ⟨y, -, rfl⟩ := hx
    positivity
  · positivity

lemma meanQ_replicate (n : ℕ) (c : ℚ) (hn : n ≠ 0) : meanQ (List.replicate n c) = c := by
  unfold meanQ
  rw [List.sum_replicate, List.length_replicate, nsmul_eq_mul]
  exact mul_div_cancel_left₀ c (Nat.cast_ne_zero.mpr hn)

lemma sampleVar_replicate (n : ℕ) (c : ℚ) : sampleVar (List.replicate n c) = 0 := by
  cases n with
  | zero => simp [sampleVar]
  | succ m =>
    unfold sampleVar
    rw [meanQ_replicate _ _ (Nat.succ_ne_zero m), List.map_replicate]
    simp

lemma pct_change_length (values : List ℚ) :
    (pct_change values).length = values.length - 1 := by
  cases values with
  | nil => rfl
  | cons x rest => simp [pct_change]

lemma pct_change_getD (values : List ℚ) (t : ℕ) (h : t + 1 < values.length) :
    (pct_change values).getD t 0 = values.getD (t + 1) 0 / values.getD t 0 - 1 := by
  induction values generalizing t with
  | nil => exact absurd h (by simp)
  | cons x rest ih =>
    cases rest with
    | nil => exact absurd h (by simp)
    | cons y rest2 =>
      cases t with
      | zero => simp [pct_change]
      | succ j =>
        have hj : j + 1 < (y :: rest2).length := by simpa using h
        have := ih j hj
        simp only [pct_change] at this ⊢
        rw [List.zipWith_cons_cons, List.getD_cons_succ, List.getD_cons_succ,
          List.getD_cons_succ]
        exact this

lemma zipWith_pct_replicate (c : ℚ) (hc : c ≠ 0) (m : ℕ) :
    List.zipWith (fun prev cur => cur / prev - 1) (c :: List.replicate m c)
      (List.replicate m c) = List.replicate m 0 := by
  induction m with
  | zero => rfl
  | succ k ih =>
    rw [List.replicate_succ, List.zipWith_cons_cons, ih, div_self hc]
    norm_num [List.replicate_succ]

lemma pct_change_replicate (c : ℚ) (hc : c ≠ 0) (n : ℕ) :
    pct_change (List.replicate n c) = List.replicate (n - 1) 0 := by
  cases n with
  | zero => rfl
  | succ m =>
    rw [List.replicate_succ]
    unfold pct_change
    simpa using zipWith_pct_replicate c hc m

/-- C9 (amended): the Sharpe computation forms the percentage returns
`value[t]/value[t-1] - 1` for `t ≥ 1`; when at least two returns exist (so
their sample standard deviation is defined) it returns 0.0 iff that standard
deviation is zero OR the mean return is zero (the annualised quotient also
vanishes with the mean); and on a constant series it returns 0.0 only from
length 3 on — for constant series of length ≤ 2 the standard deviation is
`NaN` and so is the result. -/
theorem C9_sharpe_amended :
    (∀ values : List ℚ, (pct_change values).length = values.length - 1 ∧
      ∀ t, t + 1 < values.length →
        (pct_change values).getD t 0 = values.getD (t + 1) 0 / values.getD t 0 - 1) ∧
    (∀ values : List ℚ, 2 ≤ (pct_change values).length →
      (calculate_sharpe values = some 0 ↔
        sampleVar (pct_change values) = 0 ∨ meanQ (pct_change values) = 0)) ∧
    (∀ c : ℚ, c ≠ 0 → ∀ n : ℕ,
      calculate_sharpe (List.replicate n c) = if 3 ≤ n then some 0 else none) := by
  refine ⟨fun values => ⟨pct_change_length values, fun t ht => pct_change_getD values t ht⟩,
    ?_, ?_⟩
  · intro values h
    unfold calculate_sharpe
    have hst : sampleStd (pct_change values)
        = some (Real.sqrt ((sampleVar (pct_change values) : ℚ) : ℝ)) := by
      unfold sampleStd
      rw [if_neg (by omega)]
    rw [hst, Option.some_bind]
    split_ifs with hs
    · have hv : sampleVar (pct_change values) = 0 := by
        have hle : ((sampleVar (pct_change values) : ℚ) : ℝ) ≤ 0 :=
          Real.sqrt_eq_zero'.mp hs
        have hge : (0 : ℚ) ≤ sampleVar (pct_change values) := sampleVar_nonneg _
        exact_mod_cast le_antisymm (by exact_mod_cast hle) hge
      exact iff_of_true rfl (Or.inl hv)
    · rw [Option.some_inj]
      have h252 : Real.sqrt 252 ≠ 0 := Real.sqrt_ne_zero'.mpr (by norm_num)
      constructor
      · intro h0
        rcases mul_eq_zero.mp h0 with hq | habs
        · rcases div_eq_zero_iff.mp hq with hm | hs0
          · exact Or.inr (by exact_mod_cast hm)
          · exact absurd hs0 hs
        · exact absurd habs h252
      · intro h0
        rcases h0 with hv | hm
        · exact absurd (by rw [hv]; norm_num) hs
        · rw [hm]
          push_cast
          rw [zero_div, zero_mul]
  · intro c hc n
    cases n with
    | zero => simp [calculate_sharpe, pct_change, sampleStd]
    | succ m =>
      unfold calculate_sharpe
      rw [pct_change_replicate c hc]
      simp only [Nat.succ_sub_one]
      by_cases hm : m ≤ 1
      · have hnone : sampleStd (List.replicate m 0) = none := by
          unfold sampleStd
          rw [if_pos (by simpa using hm)]
        rw [hnone, Option.none_bind, if_neg (by omega)]
      · have hsome : sampleStd (List.replicate m 0) = some 0 := by
          unfold sampleStd
          rw [if_neg (by simp; omega), sampleVar_replicate]
          norm_num
        rw [hsome, Option.some_bind, if_pos rfl, if_pos (by omega)]

/-- Witness for C9 (amended): a constant five-value series yields Sharpe 0.0. -/
theorem C9_sharpe_amended_witness :
    calculate_sharpe (List.replicate 5 (7 : ℚ)) = some 0 := by
  have h := C9_sharpe_amended.2.2 7 (by norm_num) 5
  simpa using h

/-- C9 counterexample: the constant two-value series [100, 100] has one
return whose sample standard deviation is NaN, so the code returns NaN
(modelled `none`), not 0.0 — refuting "for every constant portfolio value
series it returns exactly 0.0"; and the series [100, 200, 0] has returns
[1, -1] with nonzero standard deviation yet Sharpe exactly 0.0 (zero mean),
refuting "returns 0.0 exactly when their sample standard deviation is
zero". -/
theorem C9_sharpe_counterexample :
    calculate_sharpe [100, 100] = none ∧
    calculate_sharpe [100, 100] ≠ some 0 ∧
    calculate_sharpe [100, 200, 0] = some 0 := by
  have h1 : calculate_sharpe [100, 100] = none := by
    unfold calculate_sharpe
    have : pct_change [100, 100] = [0] := by norm_num [pct_change]
    rw [this]
    have : sampleStd [0] = none := by
      unfold sampleStd
      rw [if_pos (by norm_num)]
    rw [this, Option.none_bind]
  refine ⟨h1, by rw [h1]; simp, ?_⟩
  unfold calculate_sharpe
  have hr : pct_change [100, 200, 0] = [1, -1] := by norm_num [pct_change]
  rw [hr]
  have hv : sampleVar [1, -1] = 2 := by
    norm_num [sampleVar, meanQ]
  have hst : sampleStd [1, -1] = some (Real.sqrt 2) := by
    unfold sampleStd
    rw [if_neg (by norm_num), hv]
    norm_num
  rw [hst, Option.some_bind, if_neg (Real.sqrt_ne_zero'.mpr (by norm_num))]
  have hm : meanQ [1, -1] = 0 := by norm_num [meanQ]
  rw [hm]
  push_cast
  rw [zero_div, zero_mul]

/-- The loop state of `ClassicalBollingerStrategy.run` (classical.py lines
59-61): `cash`, `position` (0 flat, 1 long), `shares`. -/
structure CState where
  cash : ℚ
  position : ℤ
  shares : ℚ
deriving DecidableEq, Inhabited

/-- The Python comparison `close <= band` where the band may be `NaN`:
comparisons against `NaN` are false. -/
def condLE (a : ℝ) (b : Option ℝ) : Prop :=
  match b with
  | some x => a ≤ x
  | none => False

/-- The Python comparison `close >= band` where the band may be `NaN`. -/
def condGE (a : ℝ) (b : Option ℝ) : Prop :=
  match b with
  | some x => x ≤ a
  | none => False

noncomputable instance (a : ℝ) (b : Option ℝ) : Decidable (condLE a b) :=
  match b with
  | none => isFalse (fun h => h)
  | some x => inferInstanceAs (Decidable (a ≤ x))

noncomputable instance (a : ℝ) (b : Option ℝ) : Decidable (condGE a b) :=
  match b with
  | none => isFalse (fun h => h)
  | some x => inferInstanceAs (Decidable (x ≤ a))

/-- One iteration of the classical loop (classical.py lines 70-77): enter
LONG when flat and `close <= Lower_Track`, exit to flat when long and
`close >= Upper_Track`, otherwise unchanged. -/
noncomputable def classicalStep (s : CState) (close : ℚ) (upper lower : Option ℝ) : CState :=
  if s.position = 0 ∧ condLE (close : ℝ) lower then
    { position := 1, shares := s.cash / close, cash := 0 }
  else if s.position = 1 ∧ condGE (close : ℝ) upper then
    { position := 0, cash := s.shares * close, shares := 0 }
  else s

/-- The per-bar valuation of the classical loop (classical.py line 79). -/
def classicalValue (s : CState) (close : ℚ) : ℚ :=
  s.cash + s.shares * close

/-- The per-bar inputs of the classical loop: `Close`, `Upper_Track`,
`Lower_Track` read off row `t` (classical.py lines 65-68). -/
noncomputable def classicalRows (d : ℕ) (k : ℝ) (closes : List ℚ) :
    List (ℚ × Option ℝ × Option ℝ) :=
  (List.range closes.length).map (fun t =>
    (closes.getD t 0, (bollingerUpper d k closes).getD t none,
     (bollingerLower d k closes).getD t none))

/-- The state trajectory of `ClassicalBollingerStrategy.run` with window `d`,
multiplier `k` and initial capital as in the source: entry `i` is the state
after the first `i` bars. -/
noncomputable def classicalStates (I : ℚ) (d : ℕ) (k : ℝ) (closes : List ℚ) : List CState :=
  List.scanl (fun s r => classicalStep s r.1 r.2.1 r.2.2) ⟨I, 0, 0⟩ (classicalRows d k closes)

lemma window_replicate (m t d : ℕ) (hd : d ≤ t + 1) (ht : t < m) (c : ℚ) :
    (List.drop (t + 1 - d) (List.take (t + 1) (List.replicate m c))) = List.replicate d c := by
  rw [List.take_replicate, List.drop_replicate]
  congr 1
  omega

lemma replicate_getD (m t : ℕ) (c : ℚ) (ht : t < m) :
    (List.replicate m c).getD t 0 = c := by
  rw [List.getD_eq_getElem?_getD, List.getElem?_replicate]
  simp [ht]

lemma bollingerMA_replicate_getD (d m t : ℕ) (c : ℚ) (ht : t < m) (hd : 1 ≤ d) :
    (bollingerMA d (List.replicate m c)).getD t none
      = if d ≤ t + 1 then some c else none := by
  unfold bollingerMA rollingQ
  simp only [List.length_replicate]
  rw [getD_range_map, if_pos ht]
  by_cases h : d ≤ t + 1
  · rw [if_pos ⟨h, hd⟩, if_pos h, window_replicate m t d h ht c,
      meanQ_replicate d c (by omega)]
  · rw [if_neg (fun hc => h hc.1), if_neg h]

lemma bollingerSTD_replicate_getD (d m t : ℕ) (c : ℚ) (ht : t < m) (hd : 2 ≤ d) :
    (bollingerSTD d (List.replicate m c)).getD t none
      = if d ≤ t + 1 then some 0 else none := by
  unfold bollingerSTD rollingQ
  rw [List.map_map]
  simp only [List.length_replicate]
  rw [getD_range_map, if_pos ht]
  simp only [Function.comp]
  by_cases h : d ≤ t + 1
  · rw [if_pos ⟨h, by omega⟩, if_pos h, Option.some_bind,
      window_replicate m t d h ht c]
    unfold sampleStd
    rw [if_neg (by simp; omega), sampleVar_replicate]
    norm_num
  · rw [if_neg (fun hc => h hc.1), if_neg h, Option.none_bind]

lemma bollingerUpper_replicate_getD (d m t : ℕ) (k : ℝ) (c : ℚ) (ht : t < m) (hd : 2 ≤ d) :
    (bollingerUpper d k (List.replicate m c)).getD t none
      = if d ≤ t + 1 then some ((c : ℚ) : ℝ) else none := by
  unfold bollingerUpper
  simp only [List.length_replicate]
  rw [getD_range_map, if_pos ht, bollingerMA_replicate_getD d m t c ht (by omega),
    bollingerSTD_replicate_getD d m t c ht hd]
  by_cases h : d ≤ t + 1
  · rw [if_pos h, if_pos h, if_pos h]
    show some (((c : ℚ) : ℝ) + k * 0) = some ((c : ℚ) : ℝ)
    norm_num
  · rw [if_neg h, if_neg h, if_neg h]
    rfl

lemma bollingerLower_replicate_getD (d m t : ℕ) (k : ℝ) (c : ℚ) (ht : t < m) (hd : 2 ≤ d) :
    (bollingerLower d k (List.replicate m c)).getD t none
      = if d ≤ t + 1 then some ((c : ℚ) : ℝ) else none := by
  unfold bollingerLower
  simp only [List.length_replicate]
  rw [getD_range_map, if_pos ht, bollingerMA_replicate_getD d m t c ht (by omega),
    bollingerSTD_replicate_getD d m t c ht hd]
  by_cases h : d ≤ t + 1
  · rw [if_pos h, if_pos h, if_pos h]
    show some (((c : ℚ) : ℝ) - k * 0) = some ((c : ℚ) : ℝ)
    norm_num
  · rw [if_neg h, if_neg h, if_neg h]
    rfl

lemma classicalRows_length (d : ℕ) (k : ℝ) (closes : List ℚ) :
    (classicalRows d k closes).length = closes.length := by
  simp [classicalRows]

lemma classicalRows_getD (d : ℕ) (k : ℝ) (closes : List ℚ) (t : ℕ) (ht : t < closes.length) :
    (classicalRows d k closes).getD t (0, none, none)
      = (closes.getD t 0, (bollingerUpper d k closes).getD t none,
         (bollingerLower d k closes).getD t none) := by
  unfold classicalRows
  rw [getD_range_map, if_pos ht]

lemma classicalStep_none_bands (s : CState) (close : ℚ) :
    classicalStep s close none none = s := by
  unfold classicalStep
  rw [if_neg (fun h => h.2), if_neg (fun h => h.2)]

lemma scanl_getD_succ {α β : Type} (f : β → α → β) (b : β) (l : List α) (i : ℕ)
    (h : i < l.length) (dβ : β) (dα : α) :
    (List.scanl f b l).getD (i + 1) dβ = f ((List.scanl f b l).getD i dβ) (l.getD i dα) := by
  induction l generalizing b i with
  | nil => exact absurd h (by simp)
  | cons x xs ih =>
    rw [List.scanl_cons]
    cases i with
    | zero =>
      simp [List.getD_cons_zero, List.getD_cons_succ, scanl_getD_zero]
    | succ j =>
      have hj : j < xs.length := by simpa using h
      simp only [List.cons_append, List.nil_append, List.getD_cons_succ]
      exact ih (f b x) j hj

lemma scanl_eq_init {α β : Type} (f : β → α → β) (b : β) (l : List α)
    (hid : ∀ st, ∀ r ∈ l, f st r = st) : ∀ x ∈ List.scanl f b l, x = b := by
  induction l generalizing b with
  | nil =>
    intro x hx
    rw [List.scanl_nil, List.mem_singleton] at hx
    exact hx
  | cons a as ih =>
    intro x hx
    rw [List.scanl_cons] at hx
    rcases List.mem_append.mp hx with h1 | h2
    · exact List.mem_singleton.mp h1
    · have hfb : f b a = b := hid b a (List.mem_cons_self a as)
      have hx2 := ih (f b a) (fun st r hr => hid st r (List.mem_cons_of_mem a hr)) x h2
      rw [hx2, hfb]

lemma classicalStates_early (I : ℚ) (d m : ℕ) (k : ℝ) (c : ℚ) (hd : 2 ≤ d) :
    ∀ i, i + 1 ≤ d → i ≤ m →
      (classicalStates I d k (List.replicate m c)).getD i default = ⟨I, 0, 0⟩ := by
  intro i
  induction i with
  | zero =>
    intro _ _
    unfold classicalStates
    rw [scanl_getD_zero]
  | succ j ih =>
    intro hjd hjm
    unfold classicalStates at ih ⊢
    rw [scanl_getD_succ _ _ _ j
      (by rw [classicalRows_length, List.length_replicate]; omega) default (0, none, none)]
    rw [ih (by omega) (by omega)]
    rw [classicalRows_getD d k _ j (by rw [List.length_replicate]; omega)]
    rw [bollingerUpper_replicate_getD d m j k c (by omega) hd,
      bollingerLower_replicate_getD d m j k c (by omega) hd]
    rw [if_neg (show ¬ d ≤ j + 1 by omega)]
    exact classicalStep_none_bands _ _

lemma classical_const_enters (I : ℚ) (d m : ℕ) (k : ℝ) (c : ℚ)
    (hd : 2 ≤ d) (hdm : d ≤ m) :
    (classicalStates I d k (List.replicate m c)).getD d default = ⟨0, 1, I / c⟩ := by
  have hsub : d - 1 + 1 = d := by omega
  have key := scanl_getD_succ (fun s r => classicalStep s r.1 r.2.1 r.2.2)
    (⟨I, 0, 0⟩ : CState) (classicalRows d k (List.replicate m c)) (d - 1)
    (by rw [classicalRows_length, List.length_replicate]; omega) default (0, none, none)
  rw [hsub] at key
  have hearly := classicalStates_early I d m k c hd (d - 1) (by omega) (by omega)
  unfold classicalStates at hearly ⊢
  rw [key, hearly]
  rw [classicalRows_getD d k _ (d - 1) (by rw [List.length_replicate]; omega)]
  rw [bollingerUpper_replicate_getD d m (d - 1) k c (by omega) hd,
    bollingerLower_replicate_getD d m (d - 1) k c (by omega) hd]
  rw [if_pos (show d ≤ d - 1 + 1 by omega)]
  rw [replicate_getD m (d - 1) c (by omega)]
  unfold classicalStep
  rw [if_pos ⟨rfl, le_refl ((c : ℚ) : ℝ)⟩]

/-- C8 (amended): on an all-constant price series the Bollinger STD is 0 and
Upper = Lower = MA = the constant wherever defined; while the series is
shorter than the window the classical strategy never enters a position, but
once the series reaches the window length d the entry condition
`close <= Lower_Track` holds with EQUALITY at the first defined-band bar
(index d - 1), so the strategy does enter LONG there (position 1 after that
bar), contrary to "never enters".  (`c ≠ 0` rules out the degenerate
zero-price series, on which the Python entry would divide by zero.) -/
theorem C8_constant_series_amended (I : ℚ) (d m t : ℕ) (k : ℝ) (c : ℚ) (hd : 2 ≤ d) :
    (t < m → d ≤ t + 1 →
      (bollingerSTD d (List.replicate m c)).getD t none = some 0 ∧
      (bollingerMA d (List.replicate m c)).getD t none = some c ∧
      (bollingerUpper d k (List.replicate m c)).getD t none = some ((c : ℚ) : ℝ) ∧
      (bollingerLower d k (List.replicate m c)).getD t none = some ((c : ℚ) : ℝ)) ∧
    (m < d → ∀ s ∈ classicalStates I d k (List.replicate m c), s.position = 0) ∧
    (d ≤ m → c ≠ 0 →
      ((classicalStates I d k (List.replicate m c)).getD d default).position = 1) := by
  refine ⟨?_, ?_, ?_⟩
  · intro ht hdt
    refine ⟨?_, ?_, ?_, ?_⟩
    · rw [bollingerSTD_replicate_getD d m t c ht hd, if_pos hdt]
    · rw [bollingerMA_replicate_getD d m t c ht (by omega), if_pos hdt]
    · rw [bollingerUpper_replicate_getD d m t k c ht hd, if_pos hdt]
    · rw [bollingerLower_replicate_getD d m t k c ht hd, if_pos hdt]
  · intro hmd s hs
    have hid : ∀ st, ∀ r ∈ classicalRows d k (List.replicate m c),
        (fun s r => classicalStep s r.1 r.2.1 r.2.2) st r = st := by
      intro st r hr
      unfold classicalRows at hr
      rw [List.mem_map] at hr
      obtain ⟨u, hu, rfl⟩ := hr
      rw [List.mem_range, List.length_replicate] at hu
      simp only
      rw [bollingerUpper_replicate_getD d m u k c hu hd,
        bollingerLower_replicate_getD d m u k c hu hd]
      rw [if_neg (show ¬ d ≤ u + 1 by omega)]
      exact classicalStep_none_bands _ _
    unfold classicalStates at hs
    have hs0 := scanl_eq_init _ ⟨I, 0, 0⟩ (classicalRows d k (List.replicate m c)) hid s hs
    rw [hs0]
  · intro hdm _
    rw [classical_const_enters I d m k c hd hdm]

/-- Witness for C8 (amended) at concrete inputs: 25 bars of constant price
100, window 20, multiplier 3, capital 100000, inspecting bar 19. -/
theorem C8_constant_series_amended_witness :
    ((19 : ℕ) < 25 → (20 : ℕ) ≤ 19 + 1 →
      (bollingerSTD 20 (List.replicate 25 (100 : ℚ))).getD 19 none = some 0 ∧
      (bollingerMA 20 (List.replicate 25 (100 : ℚ))).getD 19 none = some 100 ∧
      (bollingerUpper 20 3 (List.replicate 25 (100 : ℚ))).getD 19 none
        = some (((100 : ℚ) : ℝ)) ∧
      (bollingerLower 20 3 (List.replicate 25 (100 : ℚ))).getD 19 none
        = some (((100 : ℚ) : ℝ))) ∧
    ((25 : ℕ) < 20 → ∀ s ∈ classicalStates 100000 20 3 (List.replicate 25 (100 : ℚ)),
      s.position = 0) ∧
    ((20 : ℕ) ≤ 25 → (100 : ℚ) ≠ 0 →
      ((classicalStates 100000 20 3 (List.replicate 25 (100 : ℚ))).getD 20
        default).position = 1) :=
  C8_constant_series_amended 100000 20 25 19 3 100 (by norm_num)

/-- C8 counterexample: on the concrete all-constant series of 20 bars at
price 100 (window 20, k = 3), the classical strategy's position after bar 19
is LONG (1), not FLAT — the strategy does enter a position, refuting "the
classical strategy never enters a position on such a series". -/
theorem C8_classical_enters_counterexample :
    ((classicalStates 100000 20 3 (List.replicate 20 (100 : ℚ))).getD 20
      default).position = 1 := by
  rw [classical_const_enters 100000 20 20 3 100 (by norm_num) (by norm_num)]

end BollingerForest
